import Mathlib

/-! The `[data-regex]` Granite UI validator of `regexValidator.js`.

Source: `granite-ui-validators/clientlib/js/regexValidator.js`

```
jQuery.validator.register({
  selector : "[data-regex]",
  validate : function(el) {
    var regex = new RegExp(el.attr("data-regex"));
    var errorMessage = Granite.I18n.get(el.attr("data-regex-text"));
    if (el.val().match(regex) != null) { return; } else { return errorMessage; }
  }
});
```

The development has four layers.

* `JSString`, `Node`, `ends`, `exec`, `lexFrom`, `parse`, `RegExp.new`: the host
  language's strings and its flag-less regular expressions, on a documented
  fragment of the pattern syntax.
* `Element`, `Element.attr`, `Element.val`, `I18n`, `strMatch`: the element handle,
  the localization lookup and the string method the validator consumes.
* `validate`: the validator itself, statement by statement.
* `RegExpObj`, `builtinExec`, `symbolMatch`, `World`, `validateIn`: the same
  validator run in a host state whose store keeps the regular-expression objects
  with their flags and `lastIndex`, for what one invocation leaves to the next.
-/

namespace RegexValidator

/-! ## Host strings -/

/-- A host string is a sequence of UTF-16 code units; the regular-expression
engine without the `u` flag works on code units. -/
abbrev JSString := List Nat

/-- UTF-16 encoding of one Unicode scalar value. -/
def utf16 (c : Char) : List Nat :=
  if c.toNat < 65536 then [c.toNat]
  else [55296 + (c.toNat - 65536) / 1024, 56320 + (c.toNat - 65536) % 1024]

/-- The host string written by a string literal. -/
def js (s : String) : JSString := s.toList.flatMap utf16

/-! ## Regular expressions: abstract syntax -/

/-- One member of a character class. -/
inductive ClassItem where
  | single (c : Nat)
  | range (lo hi : Nat)
  | digit (positive : Bool)
  | word (positive : Bool)
  | space (positive : Bool)
  deriving DecidableEq, Repr

/-- Pattern syntax tree.  Capturing and non-capturing groups are both represented
by their body, and `greedy` is recorded but never consulted: the validator only
asks whether a match exists, which neither captures nor the order in which
alternatives are tried can change in this fragment (no back-references). -/
inductive Node where
  | empty
  | char (c : Nat)
  | any
  | cls (negated : Bool) (items : List ClassItem)
  | bol
  | eol
  | wordB (positive : Bool)
  | cat (a b : Node)
  | alt (a b : Node)
  | rep (a : Node) (min : Nat) (max : Option Nat) (greedy : Bool)
  deriving DecidableEq, Repr

/-! ## Regular expressions: matching -/

/-- LineTerminator code units: LF, CR, LS, PS. -/
def isLineTerminator (c : Nat) : Bool :=
  c == 10 || c == 13 || c == 8232 || c == 8233

/-- The class `\d`. -/
def isDigit (c : Nat) : Bool := decide (48 ≤ c) && decide (c ≤ 57)

/-- The class `\w`: ASCII letters, digits and underscore. -/
def isWordChar (c : Nat) : Bool :=
  (decide (97 ≤ c) && decide (c ≤ 122)) || (decide (65 ≤ c) && decide (c ≤ 90)) ||
    isDigit c || c == 95

/-- The class `\s`: WhiteSpace and LineTerminator code units. -/
def isSpace (c : Nat) : Bool :=
  c == 9 || c == 10 || c == 11 || c == 12 || c == 13 || c == 32 || c == 160 ||
    c == 5760 || (decide (8192 ≤ c) && decide (c ≤ 8202)) || c == 8232 || c == 8233 ||
    c == 8239 || c == 8287 || c == 12288 || c == 65279

/-- Membership of a code unit in one class item (no case folding: no `i` flag). -/
def ClassItem.test : ClassItem → Nat → Bool
  | .single c, x => x == c
  | .range lo hi, x => decide (lo ≤ x) && decide (x ≤ hi)
  | .digit pos, x => isDigit x == pos
  | .word pos, x => isWordChar x == pos
  | .space pos, x => isSpace x == pos

/-- Membership of a code unit in a character class. -/
def classTest (negated : Bool) (items : List ClassItem) (x : Nat) : Bool :=
  items.any (fun it => it.test x) != negated

/-- IsWordChar at an index: false outside the input. -/
def wordAt (inp : JSString) (i : Int) : Bool :=
  if i < 0 then false
  else match inp.get? i.toNat with
    | some c => isWordChar c
    | none => false

/-- Run `f` exactly `n` times from every state of `xs`. -/
def iter (f : Nat → List Nat) : Nat → List Nat → List Nat
  | 0, xs => xs
  | n + 1, xs => iter f n (xs.flatMap f)

/-- Zero up to `n` further iterations of `f` from `i`; an iteration that does not
advance the end index is rejected (the empty check of RepeatMatcher). -/
def more (f : Nat → List Nat) : Nat → Nat → List Nat
  | 0, i => [i]
  | n + 1, i => i :: ((f i).filter (fun j => decide (i < j))).flatMap (more f n)

/-- All end indices at which `r` can finish when started at index `i` of `inp`.
A match state is an end index; a continuation-passing matcher succeeds exactly
when one of these end indices lets its continuation succeed.  For `rep` without
an upper bound every accepted iteration advances by at least one code unit, so
`inp.length` further iterations exhaust the input. -/
def ends (inp : JSString) : Node → Nat → List Nat
  | .empty, i => [i]
  | .char c, i =>
    match inp.get? i with
    | some x => if x = c then [i + 1] else []
    | none => []
  | .any, i =>
    match inp.get? i with
    | some x => if isLineTerminator x then [] else [i + 1]
    | none => []
  | .cls negated items, i =>
    match inp.get? i with
    | some x => if classTest negated items x then [i + 1] else []
    | none => []
  | .bol, i => if i = 0 then [i] else []
  | .eol, i => if i = inp.length then [i] else []
  | .wordB positive, i =>
    if (wordAt inp ((i : Int) - 1) != wordAt inp (i : Int)) == positive then [i] else []
  | .cat a b, i => (ends inp a i).flatMap (ends inp b)
  | .alt a b, i => ends inp a i ++ ends inp b i
  | .rep a min max _, i =>
    match max with
    | none => (iter (ends inp a) min [i]).flatMap (more (ends inp a) inp.length)
    | some m => (iter (ends inp a) min [i]).flatMap (more (ends inp a) (m - min))

/-- RegExpBuiltinExec without the global and sticky flags: the matcher is tried at
index 0, 1, ..., length; the result is the first index at which it succeeds. -/
def exec (re : Node) (inp : JSString) : Option Nat :=
  (List.range (inp.length + 1)).find? (fun i => !(ends inp re i).isEmpty)

/-! ## Regular expressions: pattern syntax -/

/-- How an invocation can fail.  `unmodelled` is not a host failure: it marks a
pattern that uses syntax beyond the fragment described here (back-references,
look-around, named groups and any other `(?` group than `(?:`, `\x`, `\u`, `\c`
and numeric escapes, identity escapes of letters and of code units from 128 on,
and the web-compatibility readings of a stray `]`, `{` or `}`), about which
nothing is claimed. -/
inductive Failure where
  | syntaxError
  | typeError
  | host (code : Nat)
  | unmodelled
  deriving DecidableEq, Repr

/-- Lexical units of a pattern. -/
inductive Token where
  | atom (n : Node)
  | assertion (n : Node)
  | quant (min : Nat) (max : Option Nat)
  | quest
  | opening
  | closing
  | bar
  deriving DecidableEq, Repr

/-- A class atom as written: a code unit, an unescaped `-`, or a class escape. -/
inductive RawClassAtom where
  | lit (c : Nat)
  | dash
  | esc (it : ClassItem)
  deriving DecidableEq, Repr

/-- Where the scanner is inside the pattern text. -/
inductive LexState where
  | normal
  | escape
  | opened
  | openedQ
  | clsStart
  | cls (negated : Bool) (atoms : List RawClassAtom)
  | clsEscape (negated : Bool) (atoms : List RawClassAtom)
  | braceMin (n : Option Nat)
  | braceMax (min : Nat) (m : Option Nat)
  deriving DecidableEq, Repr

/-- SyntaxCharacter: `^ $ \ . * + ? ( ) [ ] { } |`. -/
def isSyntaxChar (c : Nat) : Bool :=
  c == 94 || c == 36 || c == 92 || c == 46 || c == 42 || c == 43 || c == 63 ||
    c == 40 || c == 41 || c == 91 || c == 93 || c == 123 || c == 125 || c == 124

/-- ControlEscape: `\t \n \v \f \r`. -/
def controlEscape (c : Nat) : Option Nat :=
  if c = 116 then some 9
  else if c = 110 then some 10
  else if c = 118 then some 11
  else if c = 102 then some 12
  else if c = 114 then some 13
  else none

/-- CharacterClassEscape: `\d \D \w \W \s \S`. -/
def classEscape (c : Nat) : Option ClassItem :=
  if c = 100 then some (.digit true)
  else if c = 68 then some (.digit false)
  else if c = 119 then some (.word true)
  else if c = 87 then some (.word false)
  else if c = 115 then some (.space true)
  else if c = 83 then some (.space false)
  else none

/-- IdentityEscape, restricted to ASCII: any code unit below 128 that is not a
letter, a digit or the underscore stands for itself after a backslash. -/
def isIdentityEscape (c : Nat) : Bool := decide (c < 128) && !isWordChar c

/-- The code unit a class atom denotes as a range end, if it denotes one. -/
def RawClassAtom.unit? : RawClassAtom → Option Nat
  | .lit c => some c
  | .dash => some 45
  | .esc _ => none

/-- The class item of a class atom standing alone. -/
def RawClassAtom.item : RawClassAtom → ClassItem
  | .lit c => .single c
  | .dash => .single 45
  | .esc it => it

/-- ClassRanges: `a-b` with an atom on both sides of an unescaped dash is a range,
which must not be out of order; any other atom stands alone. -/
def mkItems : List RawClassAtom → Except Failure (List ClassItem)
  | [] => .ok []
  | a :: .dash :: b :: rest =>
    match a.unit?, b.unit? with
    | some lo, some hi =>
      if lo ≤ hi then
        match mkItems rest with
        | .ok its => .ok (.range lo hi :: its)
        | .error e => .error e
      else .error .syntaxError
    | _, _ => .error .unmodelled
  | a :: rest =>
    match mkItems rest with
    | .ok its => .ok (a.item :: its)
    | .error e => .error e

/-- Scanner step outside classes, escapes and braces. -/
def lexNormal (c : Nat) : Except Failure (LexState × List Token) :=
  if c = 92 then .ok (.escape, [])
  else if c = 40 then .ok (.opened, [])
  else if c = 41 then .ok (.normal, [.closing])
  else if c = 91 then .ok (.clsStart, [])
  else if c = 93 then .error .unmodelled
  else if c = 123 then .ok (.braceMin none, [])
  else if c = 125 then .error .unmodelled
  else if c = 124 then .ok (.normal, [.bar])
  else if c = 42 then .ok (.normal, [.quant 0 none])
  else if c = 43 then .ok (.normal, [.quant 1 none])
  else if c = 63 then .ok (.normal, [.quest])
  else if c = 94 then .ok (.normal, [.assertion .bol])
  else if c = 36 then .ok (.normal, [.assertion .eol])
  else if c = 46 then .ok (.normal, [.atom .any])
  else .ok (.normal, [.atom (.char c)])

/-- AtomEscape: the code unit after a backslash outside a class. -/
def lexEscape (c : Nat) : Except Failure (LexState × List Token) :=
  if c = 98 then .ok (.normal, [.assertion (.wordB true)])
  else if c = 66 then .ok (.normal, [.assertion (.wordB false)])
  else match classEscape c with
    | some it => .ok (.normal, [.atom (.cls false [it])])
    | none =>
      match controlEscape c with
      | some x => .ok (.normal, [.atom (.char x)])
      | none =>
        if isIdentityEscape c then .ok (.normal, [.atom (.char c)])
        else .error .unmodelled

/-- Scanner step inside a character class. -/
def lexCls (negated : Bool) (atoms : List RawClassAtom) (c : Nat) :
    Except Failure (LexState × List Token) :=
  if c = 93 then
    match mkItems atoms.reverse with
    | .ok its => .ok (.normal, [.atom (.cls negated its)])
    | .error e => .error e
  else if c = 92 then .ok (.clsEscape negated atoms, [])
  else if c = 45 then .ok (.cls negated (.dash :: atoms), [])
  else .ok (.cls negated (.lit c :: atoms), [])

/-- ClassEscape: the code unit after a backslash inside a class (`\b` is
backspace there). -/
def lexClsEscape (negated : Bool) (atoms : List RawClassAtom) (c : Nat) :
    Except Failure (LexState × List Token) :=
  if c = 98 then .ok (.cls negated (.lit 8 :: atoms), [])
  else match classEscape c with
    | some it => .ok (.cls negated (.esc it :: atoms), [])
    | none =>
      match controlEscape c with
      | some x => .ok (.cls negated (.lit x :: atoms), [])
      | none =>
        if isIdentityEscape c then .ok (.cls negated (.lit c :: atoms), [])
        else .error .unmodelled

/-- Append a decimal digit to a number being read. -/
def pushDigit (n : Option Nat) (c : Nat) : Nat :=
  (n.getD 0) * 10 + (c - 48)

/-- One scanner step: the next state and the tokens completed by code unit `c`. -/
def lexStep : LexState → Nat → Except Failure (LexState × List Token)
  | .normal, c => lexNormal c
  | .escape, c => lexEscape c
  | .opened, c =>
    if c = 63 then .ok (.openedQ, [])
    else match lexNormal c with
      | .ok (st, out) => .ok (st, .opening :: out)
      | .error e => .error e
  | .openedQ, c =>
    if c = 58 then .ok (.normal, [.opening])
    else .error .unmodelled
  | .clsStart, c =>
    if c = 94 then .ok (.cls true [], [])
    else lexCls false [] c
  | .cls negated atoms, c => lexCls negated atoms c
  | .clsEscape negated atoms, c => lexClsEscape negated atoms c
  | .braceMin n, c =>
    if isDigit c then .ok (.braceMin (some (pushDigit n c)), [])
    else match n with
      | none => .error .unmodelled
      | some k =>
        if c = 44 then .ok (.braceMax k none, [])
        else if c = 125 then .ok (.normal, [.quant k (some k)])
        else .error .unmodelled
  | .braceMax k m, c =>
    if isDigit c then .ok (.braceMax k (some (pushDigit m c)), [])
    else if c = 125 then
      match m with
      | none => .ok (.normal, [.quant k none])
      | some j => if k ≤ j then .ok (.normal, [.quant k (some j)]) else .error .syntaxError
    else .error .unmodelled

/-- End of the pattern text in each scanner state. -/
def lexEnd : LexState → Except Failure (List Token)
  | .normal => .ok []
  | .escape => .error .syntaxError
  | .opened => .ok [.opening]
  | .openedQ => .error .syntaxError
  | .clsStart => .error .syntaxError
  | .cls _ _ => .error .syntaxError
  | .clsEscape _ _ => .error .syntaxError
  | .braceMin _ => .error .unmodelled
  | .braceMax _ _ => .error .unmodelled

/-- The token sequence of a pattern text read from state `st`. -/
def lexFrom : LexState → List Nat → Except Failure (List Token)
  | st, [] => lexEnd st
  | st, c :: cs =>
    match lexStep st c with
    | .error e => .error e
    | .ok (st1, out) =>
      match lexFrom st1 cs with
      | .error e => .error e
      | .ok ts => .ok (out ++ ts)

/-- Alternative: the terms in sequence. -/
def mkCat : List Node → Node
  | [] => .empty
  | a :: rest => .cat a (mkCat rest)

/-- Disjunction: the alternatives in order. -/
def mkAlt : List Node → Node
  | [] => .empty
  | [a] => a
  | a :: rest => .alt a (mkAlt rest)

/-- What the last term of the current alternative admits after it. -/
inductive Last where
  | nothing
  | atom
  | quantified
  | lazy
  deriving DecidableEq, Repr

/-- A disjunction under construction: finished alternatives and the terms of the
current one, both latest first. -/
structure Frame where
  alts : List Node
  cur : List Node
  deriving DecidableEq, Repr

/-- The disjunction a frame denotes. -/
def Frame.close (f : Frame) : Node :=
  mkAlt ((mkCat f.cur.reverse :: f.alts).reverse)

/-- Parser state: the enclosing disjunctions, the innermost one, and the status
of its last term. -/
structure PState where
  stack : List Frame
  top : Frame
  last : Last
  deriving DecidableEq, Repr

/-- Consume one token. -/
def pstep (s : PState) : Token → Except Failure PState
  | .atom n => .ok { s with top := { s.top with cur := n :: s.top.cur }, last := .atom }
  | .assertion n => .ok { s with top := { s.top with cur := n :: s.top.cur }, last := .nothing }
  | .quant min max =>
    match s.last, s.top.cur with
    | .atom, h :: t =>
      .ok { s with top := { s.top with cur := .rep h min max true :: t }, last := .quantified }
    | _, _ => .error .syntaxError
  | .quest =>
    match s.last, s.top.cur with
    | .atom, h :: t =>
      .ok { s with top := { s.top with cur := .rep h 0 (some 1) true :: t }, last := .quantified }
    | .quantified, .rep h a b _ :: t =>
      .ok { s with top := { s.top with cur := .rep h a b false :: t }, last := .lazy }
    | _, _ => .error .syntaxError
  | .opening => .ok { stack := s.top :: s.stack, top := ⟨[], []⟩, last := .nothing }
  | .closing =>
    match s.stack with
    | [] => .error .syntaxError
    | f :: fs => .ok { stack := fs, top := { f with cur := s.top.close :: f.cur }, last := .atom }
  | .bar =>
    .ok { s with top := ⟨mkCat s.top.cur.reverse :: s.top.alts, []⟩, last := .nothing }

/-- Consume a token sequence. -/
def psteps : PState → List Token → Except Failure PState
  | s, [] => .ok s
  | s, t :: ts =>
    match pstep s t with
    | .error e => .error e
    | .ok s1 => psteps s1 ts

/-- Pattern :: Disjunction.  A group left open is a syntax error. -/
def parse (ts : List Token) : Except Failure Node :=
  match psteps ⟨[], ⟨[], []⟩, .nothing⟩ ts with
  | .error e => .error e
  | .ok s => if s.stack.isEmpty then .ok s.top.close else .error .syntaxError

/-- Compile a pattern text. -/
def compile (p : JSString) : Except Failure Node :=
  match lexFrom .normal p with
  | .error e => .error e
  | .ok ts => parse ts

/-- The constructor call `new RegExp(pattern)`: no flags; an undefined pattern is
the empty pattern. -/
def RegExp.new (pattern : Option JSString) : Except Failure Node :=
  compile (pattern.getD [])

/-! ## The element handle and the localization lookup -/

/-- What the validator can observe of the form field: its attributes and its
current value (`none`: the value read yields `undefined` or `null`). -/
structure Element where
  attrs : List (String × JSString)
  value : Option JSString
  deriving DecidableEq, Repr

/-- The getter `el.attr(name)`: the attribute value, or `undefined`; the element
after the call is returned next to it. -/
def Element.attr (el : Element) (name : String) : Option JSString × Element :=
  (el.attrs.lookup name, el)

/-- The getter `el.val()`. -/
def Element.val (el : Element) : Option JSString × Element :=
  (el.value, el)

/-- The lookup `Granite.I18n.get(key)`: a function of its key that returns the
localized string or fails. -/
abbrev I18n := Option JSString → Except Failure JSString

/-- The call `v.match(regex)`: reading `match` off `undefined` or `null` raises a
TypeError; on a string the result is the match (here: its index) or `null`. -/
def strMatch (v : Option JSString) (regex : Node) : Except Failure (Option Nat) :=
  match v with
  | none => .error .typeError
  | some s => .ok (exec regex s)

/-! ## The validator -/

/-- The function registered as `validate`.  Result `none` is the bare `return`
(no error), `some m` is `return errorMessage`; the second component is the
element after the invocation. -/
def validate (i18nGet : I18n) (el : Element) : Except Failure (Option JSString) × Element :=
  let (pattern, el1) := el.attr "data-regex"
  match RegExp.new pattern with
  | .error e => (.error e, el1)
  | .ok regex =>
    let (key, el2) := el1.attr "data-regex-text"
    match i18nGet key with
    | .error e => (.error e, el2)
    | .ok errorMessage =>
      let (v, el3) := el2.val
      match strMatch v regex with
      | .error e => (.error e, el3)
      | .ok m => if m.isSome then (.ok none, el3) else (.ok (some errorMessage), el3)

/-! ## The validator in a host state with a store of regular-expression objects -/

/-- Zero up to `n` further iterations in the order a backtracking matcher tries
them: a greedy quantifier tries one more iteration before stopping, a lazy one
stops before trying one more. -/
def moreBy (greedy : Bool) (f : Nat → List Nat) : Nat → Nat → List Nat
  | 0, i => [i]
  | n + 1, i =>
    if greedy then ((f i).filter (fun j => decide (i < j))).flatMap (moreBy greedy f n) ++ [i]
    else i :: ((f i).filter (fun j => decide (i < j))).flatMap (moreBy greedy f n)

/-- The end indices of `ends`, listed in the order in which the backtracking
matcher reaches them; the head is the end index of the match it reports. -/
def endsInOrder (inp : JSString) : Node → Nat → List Nat
  | .cat a b, i => (endsInOrder inp a i).flatMap (endsInOrder inp b)
  | .alt a b, i => endsInOrder inp a i ++ endsInOrder inp b i
  | .rep a min max greedy, i =>
    match max with
    | none =>
      (iter (endsInOrder inp a) min [i]).flatMap (moreBy greedy (endsInOrder inp a) inp.length)
    | some m =>
      (iter (endsInOrder inp a) min [i]).flatMap (moreBy greedy (endsInOrder inp a) (m - min))
  | .empty, i => ends inp .empty i
  | .char c, i => ends inp (.char c) i
  | .any, i => ends inp .any i
  | .cls negated items, i => ends inp (.cls negated items) i
  | .bol, i => ends inp .bol i
  | .eol, i => ends inp .eol i
  | .wordB positive, i => ends inp (.wordB positive) i

/-- A regular-expression object: the compiled pattern, the `global` and `sticky`
flags, and the mutable `lastIndex` property. -/
structure RegExpObj where
  node : Node
  global : Bool
  sticky : Bool
  lastIndex : Nat
  deriving DecidableEq, Repr

/-- RegExpBuiltinExec on an object: the search starts at `lastIndex` when the
object is global or sticky and at 0 otherwise; a sticky object tries that one
index only.  A global or sticky object has its `lastIndex` set to the end of the
match, or to 0 when there is none; an object without these flags is not written.
The result is the index and the end index of the match, or `null`. -/
def builtinExec (r : RegExpObj) (s : JSString) : Option (Nat × Nat) × RegExpObj :=
  let flagged := r.global || r.sticky
  let start := if flagged then r.lastIndex else 0
  let fromStart := (List.range (s.length + 1)).drop start
  let candidates := if r.sticky then fromStart.take 1 else fromStart
  match candidates.find? (fun i => !(endsInOrder s r.node i).isEmpty) with
  | none => (none, if flagged then { r with lastIndex := 0 } else r)
  | some i =>
    let e := ((endsInOrder s r.node i).head?).getD i
    (some (i, e), if flagged then { r with lastIndex := e } else r)

/-- The method behind `v.match(regex)` for a string `v`.  Without the global flag
it is one exec.  With it, `lastIndex` is set to 0 and exec is repeated until it
returns `null`, which leaves `lastIndex` at 0; the array of all matches is
represented by its first entry, and is `null` when the first exec finds nothing. -/
def symbolMatch (r : RegExpObj) (s : JSString) : Option (Nat × Nat) × RegExpObj :=
  if r.global then ((builtinExec { r with lastIndex := 0 } s).1, { r with lastIndex := 0 })
  else builtinExec r s

/-- The host state an invocation runs in: the element, and the store of
regular-expression objects created so far (a reference is an index into it). -/
structure World where
  element : Element
  store : List RegExpObj
  deriving DecidableEq, Repr

/-- The getter `el.attr(name)` in a host state. -/
def World.attr (w : World) (name : String) : Option JSString × World :=
  ((w.element.attr name).1, { w with element := (w.element.attr name).2 })

/-- The getter `el.val()` in a host state. -/
def World.val (w : World) : Option JSString × World :=
  (w.element.val.1, { w with element := w.element.val.2 })

/-- The constructor call `new RegExp(pattern)` in a host state: a new object
without flags and with `lastIndex` 0 is added to the store. -/
def World.newRegExp (w : World) (pattern : Option JSString) : Except Failure Nat × World :=
  match RegExp.new pattern with
  | .error e => (.error e, w)
  | .ok node => (.ok w.store.length, { w with store := w.store ++ [⟨node, false, false, 0⟩] })

/-- The call `v.match(regex)` in a host state, `regex` being a reference. -/
def World.strMatch (w : World) (v : Option JSString) (regex : Nat) :
    Except Failure (Option (Nat × Nat)) × World :=
  match v with
  | none => (.error .typeError, w)
  | some s =>
    match w.store.get? regex with
    | none => (.error .typeError, w)
    | some r => (.ok (symbolMatch r s).1, { w with store := w.store.set regex (symbolMatch r s).2 })

/-- The function registered as `validate`, run in a host state: the same three
statements as `validate`, with the regular expression as an object of the store. -/
def validateIn (i18nGet : I18n) (w : World) : Except Failure (Option JSString) × World :=
  let (pattern, w1) := w.attr "data-regex"
  match w1.newRegExp pattern with
  | (.error e, w2) => (.error e, w2)
  | (.ok regex, w2) =>
    let (key, w3) := w2.attr "data-regex-text"
    match i18nGet key with
    | .error e => (.error e, w3)
    | .ok errorMessage =>
      let (v, w4) := w3.val
      match w4.strMatch v regex with
      | (.error e, w5) => (.error e, w5)
      | (.ok m, w5) => if m.isSome then (.ok none, w5) else (.ok (some errorMessage), w5)

/-- A store holding a leftover sticky, global object for `[A-Z]+` whose
`lastIndex` is 4. -/
def staleStore : List RegExpObj :=
  [⟨.cat (.rep (.cls false [.range 65 90]) 1 none true) .empty, true, true, 4⟩]

/-! ## Specification vocabulary -/

/-- The text `v[i..j)` matches `re` in its context inside `v`. -/
def MatchesAt (v : JSString) (re : Node) (i j : Nat) : Prop := j ∈ ends v re i

/-- Some substring of `v` matches `re`. -/
def ContainsMatch (v : JSString) (re : Node) : Prop :=
  ∃ i j, i ≤ j ∧ j ≤ v.length ∧ MatchesAt v re i j

/-- The least number of code units any match of the node spans. -/
def minLen : Node → Nat
  | .empty => 0
  | .char _ => 1
  | .any => 1
  | .cls _ _ => 1
  | .bol => 0
  | .eol => 0
  | .wordB _ => 0
  | .cat a b => minLen a + minLen b
  | .alt a b => min (minLen a) (minLen b)
  | .rep a n _ _ => n * minLen a

/-- Element with the two attributes the validator reads and a current value. -/
def field (pattern key : String) (value : Option String) : Element :=
  { attrs := [("data-regex", js pattern), ("data-regex-text", js key)],
    value := value.map js }

/-- A lookup table as localization resolver: the text stored for the key, a host
failure for a key that is absent or not in the table. -/
def tableI18n (table : List (JSString × JSString)) : I18n :=
  fun key =>
    match key with
    | none => .error (.host 0)
    | some k =>
      match table.lookup k with
      | some text => .ok text
      | none => .error (.host 1)

/-- The resolver used in the examples: one key with its English text. -/
def demoI18n : I18n :=
  tableI18n [(js "zip.invalid", js "Enter a five-digit code")]

/-- A resolver that fails on every key. -/
def failingI18n : I18n := fun _ => .error (.host 7)

deriving instance DecidableEq for Except

/-! ## Basic facts about the validator and the matcher -/

/-- The element after an invocation is the element before it. -/
theorem validate_snd (res : I18n) (el : Element) : (validate res el).2 = el := by
  unfold validate Element.attr Element.val
  simp only
  split
  · rfl
  · split
    · rfl
    · split
      · rfl
      · split <;> rfl

/-- The outcome of an invocation, read off the three statements in order. -/
theorem validate_fst (res : I18n) (el : Element) :
    (validate res el).1 =
      (match RegExp.new (el.attrs.lookup "data-regex") with
       | .error e => .error e
       | .ok regex =>
         match res (el.attrs.lookup "data-regex-text") with
         | .error e => .error e
         | .ok msg =>
           match el.value with
           | none => .error .typeError
           | some v => if (exec regex v).isSome then .ok none else .ok (some msg)) := by
  unfold validate Element.attr Element.val strMatch
  simp only
  split
  · rfl
  · split
    · rfl
    · cases el.value with
      | none => rfl
      | some v => simp only; split <;> rfl

/-- A property kept by every step is kept by repeated steps. -/
theorem iter_bound (f : Nat → List Nat) (P : Nat → Prop)
    (hf : ∀ x y, P x → y ∈ f x → P y) :
    ∀ (n : Nat) (xs : List Nat), (∀ x ∈ xs, P x) → ∀ y ∈ iter f n xs, P y := by
  intro n
  induction n with
  | zero => intro xs h y hy; exact h y hy
  | succ n ih =>
    intro xs h y hy
    refine ih (xs.flatMap f) ?_ y hy
    intro z hz
    rcases List.mem_flatMap.mp hz with ⟨x, hx, hzx⟩
    exact hf x z (h x hx) hzx

/-- Further iterations never move backwards nor past the bound of the steps. -/
theorem more_bound (f : Nat → List Nat) (L : Nat)
    (hf : ∀ x y, x ≤ L → y ∈ f x → y ≤ L) :
    ∀ (n i j : Nat), i ≤ L → j ∈ more f n i → i ≤ j ∧ j ≤ L := by
  intro n
  induction n with
  | zero =>
    intro i j hi hj
    simp [more] at hj
    subst hj
    exact ⟨le_refl _, hi⟩
  | succ n ih =>
    intro i j hi hj
    simp only [more, List.mem_cons, List.mem_flatMap, List.mem_filter, decide_eq_true_eq] at hj
    rcases hj with rfl | ⟨k, ⟨hk, hik⟩, hjk⟩
    · exact ⟨le_refl _, hi⟩
    · have := ih k j (hf i k hi hk) hjk
      omega

/-- A literal code unit matches itself, one unit long. -/
theorem mem_ends_char (inp : JSString) (c i j : Nat) :
    j ∈ ends inp (.char c) i ↔ j = i + 1 ∧ inp.get? i = some c := by
  simp only [ends]
  cases h : inp.get? i with
  | none => simp
  | some x =>
    by_cases hx : x = c
    · simp [hx]
    · simp [hx]

/-- The dot matches one code unit that is no line terminator. -/
theorem mem_ends_any (inp : JSString) (i j : Nat) :
    j ∈ ends inp .any i ↔ j = i + 1 ∧ ∃ x, inp.get? i = some x ∧ isLineTerminator x = false := by
  simp only [ends]
  cases h : inp.get? i with
  | none => simp
  | some x =>
    cases hx : isLineTerminator x <;> simp [hx]

/-- A class matches one code unit that passes its test. -/
theorem mem_ends_cls (inp : JSString) (neg : Bool) (items : List ClassItem) (i j : Nat) :
    j ∈ ends inp (.cls neg items) i ↔
      j = i + 1 ∧ ∃ x, inp.get? i = some x ∧ classTest neg items x = true := by
  simp only [ends]
  cases h : inp.get? i with
  | none => simp
  | some x =>
    cases hx : classTest neg items x <;> simp [hx]

/-- Every end index lies between the start index and the end of the input. -/
theorem ends_bound (inp : JSString) (r : Node) :
    ∀ (i j : Nat), i ≤ inp.length → j ∈ ends inp r i → i ≤ j ∧ j ≤ inp.length := by
  induction r with
  | empty => intro i j hi hj; simp [ends] at hj; omega
  | char c =>
    intro i j hi hj
    rcases (mem_ends_char inp c i j).mp hj with ⟨rfl, hx⟩
    have := (List.get?_eq_some.mp hx).1
    omega
  | any =>
    intro i j hi hj
    rcases (mem_ends_any inp i j).mp hj with ⟨rfl, x, hx, _⟩
    have := (List.get?_eq_some.mp hx).1
    omega
  | cls neg items =>
    intro i j hi hj
    rcases (mem_ends_cls inp neg items i j).mp hj with ⟨rfl, x, hx, _⟩
    have := (List.get?_eq_some.mp hx).1
    omega
  | bol => intro i j hi hj; simp only [ends] at hj; split at hj <;> simp at hj <;> omega
  | eol => intro i j hi hj; simp only [ends] at hj; split at hj <;> simp at hj <;> omega
  | wordB p => intro i j hi hj; simp only [ends] at hj; split at hj <;> simp at hj <;> omega
  | cat a b iha ihb =>
    intro i j hi hj
    simp only [ends, List.mem_flatMap] at hj
    rcases hj with ⟨k, hk, hjk⟩
    have h1 := iha i k hi hk
    have h2 := ihb k j h1.2 hjk
    omega
  | alt a b iha ihb =>
    intro i j hi hj
    simp only [ends, List.mem_append] at hj
    rcases hj with h | h
    · exact iha i j hi h
    · exact ihb i j hi h
  | rep a n m g iha =>
    intro i j hi hj
    have hiter : ∀ y ∈ iter (ends inp a) n [i], i ≤ y ∧ y ≤ inp.length := by
      refine iter_bound (ends inp a) (fun y => i ≤ y ∧ y ≤ inp.length) ?_ n [i] ?_
      · intro x y hx hy
        have := iha x y hx.2 hy
        omega
      · intro x hx
        simp at hx
        omega
    have hmore : ∀ (k x y : Nat), x ≤ inp.length → y ∈ more (ends inp a) k x →
        x ≤ y ∧ y ≤ inp.length :=
      more_bound (ends inp a) inp.length (fun x y hx hy => (iha x y hx hy).2)
    simp only [ends] at hj
    cases m with
    | none =>
      simp only [List.mem_flatMap] at hj
      rcases hj with ⟨k, hk, hjk⟩
      have h1 := hiter k hk
      have h2 := hmore _ k j h1.2 hjk
      omega
    | some m =>
      simp only [List.mem_flatMap] at hj
      rcases hj with ⟨k, hk, hjk⟩
      have h1 := hiter k hk
      have h2 := hmore _ k j h1.2 hjk
      omega

/-- Once the fuel covers the distance to the bound, one more unit of fuel adds no
end index. -/
theorem more_saturated (f : Nat → List Nat) (L : Nat)
    (hf : ∀ x y, x ≤ L → y ∈ f x → y ≤ L) :
    ∀ (n i : Nat), i ≤ L → L - i ≤ n → ∀ j, j ∈ more f (n + 1) i ↔ j ∈ more f n i := by
  intro n
  induction n with
  | zero =>
    intro i hi hn j
    have hiL : i = L := by omega
    subst hiL
    simp only [more, List.mem_cons, List.mem_flatMap, List.mem_filter, decide_eq_true_eq,
      List.mem_singleton, List.not_mem_nil, or_false]
    constructor
    · rintro (h | ⟨k, ⟨hk, hlt⟩, _⟩)
      · exact h
      · have := hf i k (le_refl _) hk
        omega
    · intro h; exact Or.inl h
  | succ n ih =>
    intro i hi hn j
    rw [more, more]
    simp only [List.mem_cons, List.mem_flatMap, List.mem_filter, decide_eq_true_eq]
    constructor
    · rintro (h | ⟨k, ⟨hk, hlt⟩, hj⟩)
      · exact Or.inl h
      · have hkL := hf i k hi hk
        exact Or.inr ⟨k, ⟨hk, hlt⟩, (ih k hkL (by omega) j).mp hj⟩
    · rintro (h | ⟨k, ⟨hk, hlt⟩, hj⟩)
      · exact Or.inl h
      · have hkL := hf i k hi hk
        exact Or.inr ⟨k, ⟨hk, hlt⟩, (ih k hkL (by omega) j).mpr hj⟩

/-- The fuel of an unbounded repetition is enough: any larger fuel yields the same
end indices. -/
theorem more_fuel_enough (inp : JSString) (a : Node) (i j : Nat) (hi : i ≤ inp.length) :
    ∀ (d : Nat), j ∈ more (ends inp a) (inp.length + d) i ↔
      j ∈ more (ends inp a) inp.length i := by
  intro d
  induction d with
  | zero => rfl
  | succ d ih =>
    rw [← ih, ← Nat.add_assoc]
    exact more_saturated (ends inp a) inp.length
      (fun x y hx hy => (ends_bound inp a x y hx hy).2) (inp.length + d) i hi (by omega) j

/-- The search succeeds exactly when some substring matches. -/
theorem exec_isSome_iff (re : Node) (v : JSString) :
    (exec re v).isSome = true ↔ ContainsMatch v re := by
  unfold exec ContainsMatch MatchesAt
  rw [List.find?_isSome]
  constructor
  · rintro ⟨i, hi, hne⟩
    have hi' : i ≤ v.length := by
      have := List.mem_range.mp hi
      omega
    cases hends : ends v re i with
    | nil => simp [hends] at hne
    | cons j rest =>
      have hj : j ∈ ends v re i := by simp [hends]
      have := ends_bound v re i j hi' hj
      exact ⟨i, j, this.1, this.2, hj⟩
  · rintro ⟨i, j, hij, hj, hmem⟩
    refine ⟨i, List.mem_range.mpr (by omega), ?_⟩
    cases hends : ends v re i with
    | nil => simp [hends] at hmem
    | cons _ _ => simp

/-- The result of the validator once the pattern compiles, the resolver returns
and the value is a string. -/
theorem validate_of_ok (res : I18n) (el : Element) (re : Node) (v msg : JSString)
    (hp : RegExp.new (el.attr "data-regex").1 = .ok re)
    (hk : res (el.attr "data-regex-text").1 = .ok msg)
    (hv : el.val.1 = some v) :
    (validate res el).1 = if (exec re v).isSome then .ok none else .ok (some msg) := by
  simp only [Element.attr, Element.val] at hp hk hv
  rw [validate_fst, hp]
  simp only [hk, hv]

/-- Whether the validator passes or reports, in terms of substrings that match. -/
theorem validate_by_match (res : I18n) (el : Element) (re : Node) (v msg : JSString)
    (hp : RegExp.new (el.attr "data-regex").1 = .ok re)
    (hk : res (el.attr "data-regex-text").1 = .ok msg)
    (hv : el.val.1 = some v) :
    (ContainsMatch v re → (validate res el).1 = .ok none) ∧
      (¬ ContainsMatch v re → (validate res el).1 = .ok (some msg)) := by
  rw [validate_of_ok res el re v msg hp hk hv, ← exec_isSome_iff]
  constructor
  · intro h; simp [h]
  · intro h; simp [h]

/-- The validator passes exactly when some substring matches. -/
theorem validate_passes_iff (res : I18n) (el : Element) (re : Node) (v msg : JSString)
    (hp : RegExp.new (el.attr "data-regex").1 = .ok re)
    (hk : res (el.attr "data-regex-text").1 = .ok msg)
    (hv : el.val.1 = some v) :
    (validate res el).1 = .ok none ↔ ContainsMatch v re := by
  have h := validate_by_match res el re v msg hp hk hv
  refine ⟨?_, h.1⟩
  intro hok
  by_contra hn
  rw [h.2 hn] at hok
  cases hok

/-- Claim C1: For a pattern that compiles, a string value and a message key the
resolver maps to a string: the validator returns no error when the value contains
a substring matching the pattern, and otherwise returns exactly the resolver's
string for the `data-regex-text` key. -/
theorem validate_contract (res : I18n) (el : Element) (re : Node) (v msg : JSString)
    (hp : RegExp.new (el.attr "data-regex").1 = .ok re)
    (hk : res (el.attr "data-regex-text").1 = .ok msg)
    (hv : el.val.1 = some v) :
    (ContainsMatch v re → (validate res el).1 = .ok none) ∧
      (¬ ContainsMatch v re → (validate res el).1 = .ok (some msg)) := by
  have h := validate_passes_iff res el re v msg hp hk hv
  refine ⟨h.mpr, fun hn => ?_⟩
  have hcases := validate_of_ok res el re v msg hp hk hv
  have hx : (exec re v).isSome = false := by
    cases hs : (exec re v).isSome with
    | false => rfl
    | true => exact absurd ((exec_isSome_iff re v).mp hs) hn
  rw [hcases, hx]
  rfl

/-- Claim C1 at `^[0-9]{5}$`: `94105` passes, `9410` yields the resolved text. -/
theorem validate_contract_witness :
    (validate demoI18n (field "^[0-9]{5}$" "zip.invalid" (some "94105"))).1 = .ok none ∧
      (validate demoI18n (field "^[0-9]{5}$" "zip.invalid" (some "9410"))).1 =
        .ok (some (js "Enter a five-digit code")) :=
  ⟨(validate_contract demoI18n (field "^[0-9]{5}$" "zip.invalid" (some "94105"))
      (.cat .bol (.cat (.rep (.cls false [.range 48 57]) 5 (some 5) true) (.cat .eol .empty)))
      (js "94105") (js "Enter a five-digit code") (by decide) (by decide) (by decide)).1
      ((exec_isSome_iff _ _).mp (by decide)),
   (validate_contract demoI18n (field "^[0-9]{5}$" "zip.invalid" (some "9410"))
      (.cat .bol (.cat (.rep (.cls false [.range 48 57]) 5 (some 5) true) (.cat .eol .empty)))
      (js "9410") (js "Enter a five-digit code") (by decide) (by decide) (by decide)).2
      (fun h => absurd ((exec_isSome_iff _ _).mpr h) (by decide))⟩

/-- Claim C2, as stated, fails: The value `94105` matches `^[0-9]{5}$`, yet with a
resolver that fails on the key the invocation does not signal success: it fails
with the resolver's failure. -/
theorem resolver_failure_on_matching_value :
    (exec (.cat .bol (.cat (.rep (.cls false [.range 48 57]) 5 (some 5) true) (.cat .eol .empty)))
        (js "94105")).isSome = true ∧
      RegExp.new ((field "^[0-9]{5}$" "zip.invalid" (some "94105")).attr "data-regex").1 =
        .ok (.cat .bol (.cat (.rep (.cls false [.range 48 57]) 5 (some 5) true)
          (.cat .eol .empty))) ∧
      (validate failingI18n (field "^[0-9]{5}$" "zip.invalid" (some "94105"))).1 =
        .error (.host 7) ∧
      (validate failingI18n (field "^[0-9]{5}$" "zip.invalid" (some "94105"))).1 ≠ .ok none := by
  decide

/-- Claim C2, amended: For an element whose pattern compiles and whose value matches
it: if the resolver returns a string for the message key, the validator signals
success (the string is not part of the result); if the resolver fails on that
key, the invocation fails with the resolver's failure. -/
theorem matching_value_needs_resolver (res : I18n) (el : Element) (re : Node)
    (v : JSString)
    (hp : RegExp.new (el.attr "data-regex").1 = .ok re)
    (hv : el.val.1 = some v)
    (hm : ContainsMatch v re) :
    (∀ msg, res (el.attr "data-regex-text").1 = .ok msg → (validate res el).1 = .ok none) ∧
      (∀ e, res (el.attr "data-regex-text").1 = .error e → (validate res el).1 = .error e) := by
  constructor
  · intro msg hk
    exact (validate_by_match res el re v msg hp hk hv).1 hm
  · intro e hk
    simp only [Element.attr] at hp hk
    rw [validate_fst, hp]
    simp only [hk]

/-- Claim C2, amended, at `[A-Z]+` and `heLLo`: success with a resolver that returns, the
resolver's failure with one that fails. -/
theorem matching_value_needs_resolver_witness :
    (validate demoI18n (field "[A-Z]+" "zip.invalid" (some "heLLo"))).1 = .ok none ∧
      (validate failingI18n (field "[A-Z]+" "zip.invalid" (some "heLLo"))).1 =
        .error (.host 7) :=
  ⟨(matching_value_needs_resolver demoI18n (field "[A-Z]+" "zip.invalid" (some "heLLo"))
      (.cat (.rep (.cls false [.range 65 90]) 1 none true) .empty) (js "heLLo")
      (by decide) (by decide) ((exec_isSome_iff _ _).mp (by decide))).1
      (js "Enter a five-digit code") (by decide),
   (matching_value_needs_resolver failingI18n (field "[A-Z]+" "zip.invalid" (some "heLLo"))
      (.cat (.rep (.cls false [.range 65 90]) 1 none true) .empty) (js "heLLo")
      (by decide) (by decide) ((exec_isSome_iff _ _).mp (by decide))).2
      (.host 7) (by decide)⟩

/-- Claim C3, as stated, fails: With the pattern `.+` and a missing value the
validator does not return the error message: the invocation fails with a
TypeError. -/
theorem missing_value_is_type_error :
    demoI18n ((field ".+" "zip.invalid" none).attr "data-regex-text").1 =
        .ok (js "Enter a five-digit code") ∧
      (validate demoI18n (field ".+" "zip.invalid" none)).1 = .error .typeError ∧
      (validate demoI18n (field ".+" "zip.invalid" none)).1 ≠
        .ok (some (js "Enter a five-digit code")) := by
  decide

/-- Claim C3, amended: For an element whose pattern is `.+` and whose message key
the resolver maps to a string: if the value is the empty string the validator
returns that string as its result; if the value is missing the invocation fails
with a TypeError and returns no result. -/
theorem dot_plus_on_empty_or_missing (res : I18n) (el : Element) (msg : JSString)
    (hp : (el.attr "data-regex").1 = some (js ".+"))
    (hk : res (el.attr "data-regex-text").1 = .ok msg) :
    (el.val.1 = some [] → (validate res el).1 = .ok (some msg)) ∧
      (el.val.1 = none → (validate res el).1 = .error .typeError) := by
  have hc : RegExp.new (el.attr "data-regex").1 = .ok (.cat (.rep .any 1 none true) .empty) := by
    rw [hp]; decide
  constructor
  · intro hv
    have hx : (exec (.cat (.rep .any 1 none true) .empty) []).isSome = false := by decide
    rw [validate_of_ok res el _ [] msg hc hk hv, hx]
    rfl
  · intro hv
    simp only [Element.attr, Element.val] at hc hk hv
    rw [validate_fst, hc]
    simp only [hk, hv]

/-- Claim C3, amended, at the empty and at the missing value. -/
theorem dot_plus_on_empty_or_missing_witness :
    (validate demoI18n (field ".+" "zip.invalid" (some ""))).1 =
        .ok (some (js "Enter a five-digit code")) ∧
      (validate demoI18n (field ".+" "zip.invalid" none)).1 = .error .typeError :=
  ⟨(dot_plus_on_empty_or_missing demoI18n (field ".+" "zip.invalid" (some ""))
      (js "Enter a five-digit code") (by decide) (by decide)).1 (by decide),
   (dot_plus_on_empty_or_missing demoI18n (field ".+" "zip.invalid" none)
      (js "Enter a five-digit code") (by decide) (by decide)).2 (by decide)⟩

/-- Claim C4: The validator handles no failure locally: when compiling the pattern
attribute fails, the invocation fails with that failure, whatever the value and
the message key are; when the pattern compiles and the resolver fails on the key,
the invocation fails with the resolver's failure. -/
theorem validate_propagates_failures (res : I18n) (el : Element) :
    (∀ e, RegExp.new (el.attr "data-regex").1 = .error e → (validate res el).1 = .error e) ∧
      (∀ re e, RegExp.new (el.attr "data-regex").1 = .ok re →
        res (el.attr "data-regex-text").1 = .error e → (validate res el).1 = .error e) := by
  constructor
  · intro e hp
    simp only [Element.attr] at hp
    rw [validate_fst, hp]
  · intro re e hp hk
    simp only [Element.attr] at hp hk
    rw [validate_fst, hp]
    simp only [hk]

/-- Claim C4 at the unterminated class `[0-9` and at a failing resolver. -/
theorem validate_propagates_failures_witness :
    (validate demoI18n (field "[0-9" "zip.invalid" (some "94105"))).1 = .error .syntaxError ∧
      (validate failingI18n (field "[0-9]+" "zip.invalid" (some "x"))).1 = .error (.host 7) :=
  ⟨(validate_propagates_failures demoI18n (field "[0-9" "zip.invalid" (some "94105"))).1
      .syntaxError (by decide),
   (validate_propagates_failures failingI18n (field "[0-9]+" "zip.invalid" (some "x"))).2
      (.cat (.rep (.cls false [.range 48 57]) 1 none true) .empty) (.host 7)
      (by decide) (by decide)⟩

/-- Claim C9: The validator only reads the element: after an invocation, whatever its
outcome, the element is the one it started with: every attribute read and the
value read return what they returned before. -/
theorem validate_reads_only (res : I18n) (el : Element) :
    (validate res el).2 = el ∧
      (∀ name, ((validate res el).2.attr name).1 = (el.attr name).1) ∧
      ((validate res el).2.val).1 = el.val.1 := by
  rw [validate_snd]
  exact ⟨rfl, fun _ => rfl, rfl⟩

/-- A match at index 0 is the one the search reports. -/
theorem exec_of_ends_zero (re : Node) (v : JSString) (h : (ends v re 0).isEmpty = false) :
    exec re v = some 0 := by
  unfold exec
  rw [List.range_succ_eq_map, List.find?_cons]
  simp [h]

/-- Claim C10: An empty pattern accepts everything: when the `data-regex` attribute is
the empty string or reads as absent, the compiled expression is the empty pattern,
it matches every string value at index 0, and the validator returns no error,
provided the resolver does not fail. -/
theorem empty_pattern_accepts_everything (res : I18n) (el : Element) (v msg : JSString)
    (hp : (el.attr "data-regex").1 = some [] ∨ (el.attr "data-regex").1 = none)
    (hk : res (el.attr "data-regex-text").1 = .ok msg)
    (hv : el.val.1 = some v) :
    RegExp.new (el.attr "data-regex").1 = .ok .empty ∧
      exec .empty v = some 0 ∧
      (validate res el).1 = .ok none := by
  have hc : RegExp.new (el.attr "data-regex").1 = .ok .empty := by
    rcases hp with h | h <;> rw [h] <;> decide
  have he : exec .empty v = some 0 := exec_of_ends_zero .empty v (by simp [ends])
  refine ⟨hc, he, ?_⟩
  rw [validate_of_ok res el .empty v msg hc hk hv, he]
  rfl

/-- Claim C10 at the empty attribute with two values, and at an absent attribute. -/
theorem empty_pattern_accepts_everything_witness :
    (validate demoI18n (field "" "zip.invalid" (some "anything at all"))).1 = .ok none ∧
      (validate demoI18n (field "" "zip.invalid" (some ""))).1 = .ok none ∧
      (validate demoI18n
        { attrs := [("data-regex-text", js "zip.invalid")], value := some (js "x") }).1 =
        .ok none :=
  ⟨(empty_pattern_accepts_everything demoI18n (field "" "zip.invalid" (some "anything at all"))
      (js "anything at all") (js "Enter a five-digit code")
      (Or.inl (by decide)) (by decide) (by decide)).2.2,
   (empty_pattern_accepts_everything demoI18n (field "" "zip.invalid" (some ""))
      (js "") (js "Enter a five-digit code")
      (Or.inl (by decide)) (by decide) (by decide)).2.2,
   (empty_pattern_accepts_everything demoI18n
      { attrs := [("data-regex-text", js "zip.invalid")], value := some (js "x") }
      (js "x") (js "Enter a five-digit code")
      (Or.inr (by decide)) (by decide) (by decide)).2.2⟩

/-- Steps that each advance by at least `d` advance by `n * d` in `n` rounds. -/
theorem iter_lower (f : Nat → List Nat) (L d : Nat)
    (hf : ∀ x y, x ≤ L → y ∈ f x → x + d ≤ y ∧ y ≤ L) :
    ∀ (n : Nat) (xs : List Nat) (b : Nat), (∀ x ∈ xs, b ≤ x ∧ x ≤ L) →
      ∀ y ∈ iter f n xs, b + n * d ≤ y ∧ y ≤ L := by
  intro n
  induction n with
  | zero =>
    intro xs b h y hy
    have := h y hy
    simp only [Nat.zero_mul, Nat.add_zero]
    exact this
  | succ n ih =>
    intro xs b h y hy
    have hstep : ∀ z ∈ xs.flatMap f, b + d ≤ z ∧ z ≤ L := by
      intro z hz
      rcases List.mem_flatMap.mp hz with ⟨x, hx, hzx⟩
      have h1 := h x hx
      have h2 := hf x z h1.2 hzx
      omega
    have := ih (xs.flatMap f) (b + d) hstep y hy
    rw [Nat.succ_mul]
    omega

/-- Every match spans at least `minLen` code units. -/
theorem ends_minLen (inp : JSString) (r : Node) :
    ∀ (i j : Nat), i ≤ inp.length → j ∈ ends inp r i → i + minLen r ≤ j := by
  induction r with
  | empty => intro i j _ hj; simp [ends] at hj; simp [minLen, hj]
  | char c =>
    intro i j _ hj
    rcases (mem_ends_char inp c i j).mp hj with ⟨rfl, _⟩
    simp [minLen]
  | any =>
    intro i j _ hj
    rcases (mem_ends_any inp i j).mp hj with ⟨rfl, _⟩
    simp [minLen]
  | cls neg items =>
    intro i j _ hj
    rcases (mem_ends_cls inp neg items i j).mp hj with ⟨rfl, _⟩
    simp [minLen]
  | bol => intro i j hi hj; have := (ends_bound inp .bol i j hi hj).1; simpa [minLen] using this
  | eol => intro i j hi hj; have := (ends_bound inp .eol i j hi hj).1; simpa [minLen] using this
  | wordB p =>
    intro i j hi hj
    have := (ends_bound inp (.wordB p) i j hi hj).1
    simpa [minLen] using this
  | cat a b iha ihb =>
    intro i j hi hj
    simp only [ends, List.mem_flatMap] at hj
    rcases hj with ⟨k, hk, hjk⟩
    have h1 := iha i k hi hk
    have h2 := ihb k j (ends_bound inp a i k hi hk).2 hjk
    simp only [minLen]
    omega
  | alt a b iha ihb =>
    intro i j hi hj
    simp only [ends, List.mem_append] at hj
    simp only [minLen]
    rcases hj with h | h
    · have := iha i j hi h
      omega
    · have := ihb i j hi h
      omega
  | rep a n m g iha =>
    intro i j hi hj
    have hiter : ∀ y ∈ iter (ends inp a) n [i], i + n * minLen a ≤ y ∧ y ≤ inp.length := by
      refine iter_lower (ends inp a) inp.length (minLen a) ?_ n [i] i ?_
      · intro x y hx hy
        exact ⟨iha x y hx hy, (ends_bound inp a x y hx hy).2⟩
      · intro x hx
        simp at hx
        omega
    have hmore : ∀ (k x y : Nat), x ≤ inp.length → y ∈ more (ends inp a) k x →
        x ≤ y ∧ y ≤ inp.length :=
      more_bound (ends inp a) inp.length (fun x y hx hy => (ends_bound inp a x y hx hy).2)
    simp only [minLen]
    simp only [ends] at hj
    cases m with
    | none =>
      simp only [List.mem_flatMap] at hj
      rcases hj with ⟨k, hk, hjk⟩
      have h1 := hiter k hk
      have h2 := hmore _ k j h1.2 hjk
      omega
    | some m =>
      simp only [List.mem_flatMap] at hj
      rcases hj with ⟨k, hk, hjk⟩
      have h1 := hiter k hk
      have h2 := hmore _ k j h1.2 hjk
      omega

/-- In the empty value the only substring is the empty one at index 0. -/
theorem containsMatch_nil (re : Node) : ContainsMatch [] re ↔ MatchesAt [] re 0 0 := by
  unfold ContainsMatch
  constructor
  · rintro ⟨i, j, hij, hj, h⟩
    simp only [List.length_nil, Nat.le_zero_eq] at hj
    subst hj
    simp only [Nat.le_zero_eq] at hij
    subst hij
    exact h
  · intro h
    exact ⟨0, 0, le_refl _, by simp, h⟩

/-- Claim C6: The empty value is not special-cased.  For a pattern that compiles and a
key the resolver maps to a string, the validator on the value `""` returns no
error exactly when the pattern matches the empty string, and the message
otherwise; so a pattern every match of which spans at least one code unit yields
the message, and zero-or-more of a character class passes. -/
theorem empty_value_not_special (res : I18n) (el : Element) (re : Node) (msg : JSString)
    (hp : RegExp.new (el.attr "data-regex").1 = .ok re)
    (hk : res (el.attr "data-regex-text").1 = .ok msg)
    (hv : el.val.1 = some []) :
    ((validate res el).1 = .ok none ↔ MatchesAt [] re 0 0) ∧
      (¬ MatchesAt [] re 0 0 → (validate res el).1 = .ok (some msg)) ∧
      (1 ≤ minLen re → (validate res el).1 = .ok (some msg)) ∧
      (∀ neg items g, re = mkCat [.rep (.cls neg items) 0 none g] →
        (validate res el).1 = .ok none) := by
  have hc := validate_by_match res el re [] msg hp hk hv
  rw [containsMatch_nil] at hc
  have hiff : (validate res el).1 = .ok none ↔ MatchesAt [] re 0 0 := by
    constructor
    · intro h
      by_contra hn
      rw [hc.2 hn] at h
      cases h
    · exact hc.1
  refine ⟨hiff, hc.2, ?_, ?_⟩
  · intro hmin
    apply hc.2
    intro hm
    have := ends_minLen [] re 0 0 (le_refl _) hm
    omega
  · intro neg items g hre
    apply hc.1
    subst hre
    simp [MatchesAt, mkCat, ends, iter, more]

/-- Claim C6 at `[a-z]*` (passes) and `[0-9]+` (yields the text) on the empty value. -/
theorem empty_value_not_special_witness :
    (validate demoI18n (field "[a-z]*" "zip.invalid" (some ""))).1 = .ok none ∧
      (validate demoI18n (field "[0-9]+" "zip.invalid" (some ""))).1 =
        .ok (some (js "Enter a five-digit code")) :=
  ⟨(empty_value_not_special demoI18n (field "[a-z]*" "zip.invalid" (some ""))
      (mkCat [.rep (.cls false [.range 97 122]) 0 none true]) (js "Enter a five-digit code")
      (by decide) (by decide) (by decide)).2.2.2 false [.range 97 122] true rfl,
   (empty_value_not_special demoI18n (field "[0-9]+" "zip.invalid" (some ""))
      (mkCat [.rep (.cls false [.range 48 57]) 1 none true]) (js "Enter a five-digit code")
      (by decide) (by decide) (by decide)).2.2.1 (by decide)⟩

/-- Repeated steps from a list of states are repeated steps from one of them. -/
theorem mem_iter_iff (f : Nat → List Nat) (j : Nat) :
    ∀ (n : Nat) (xs : List Nat), j ∈ iter f n xs ↔ ∃ x ∈ xs, j ∈ iter f n [x] := by
  intro n
  induction n with
  | zero => intro xs; simp [iter]
  | succ n ih =>
    intro xs
    simp only [iter]
    rw [ih (xs.flatMap f)]
    constructor
    · rintro ⟨y, hy, hj⟩
      rcases List.mem_flatMap.mp hy with ⟨x, hx, hyx⟩
      refine ⟨x, hx, ?_⟩
      rw [ih]
      exact ⟨y, by simpa using hyx, hj⟩
    · rintro ⟨x, hx, hj⟩
      rw [ih] at hj
      rcases hj with ⟨y, hy, hj⟩
      exact ⟨y, List.mem_flatMap.mpr ⟨x, hx, by simpa using hy⟩, hj⟩

/-- Exactly `n` repetitions of a one-unit node: the next `n` code units all pass
its test. -/
theorem mem_iter_unit (inp : JSString) (a : Node) (t : Nat → Bool)
    (ha : ∀ i j, j ∈ ends inp a i ↔ j = i + 1 ∧ ∃ x, inp.get? i = some x ∧ t x = true) :
    ∀ (n i j : Nat), j ∈ iter (ends inp a) n [i] ↔
      j = i + n ∧ ∀ k, k < n → ∃ x, inp.get? (i + k) = some x ∧ t x = true := by
  intro n
  induction n with
  | zero => intro i j; simp [iter]
  | succ n ih =>
    intro i j
    simp only [iter]
    rw [mem_iter_iff]
    constructor
    · rintro ⟨y, hy, hj⟩
      simp only [List.flatMap_cons, List.flatMap_nil, List.append_nil] at hy
      rcases (ha i y).mp hy with ⟨rfl, hx⟩
      rcases (ih (i + 1) j).mp hj with ⟨rfl, hall⟩
      refine ⟨by omega, ?_⟩
      intro k hk
      cases k with
      | zero => simpa using hx
      | succ k =>
        have := hall k (by omega)
        rw [show i + (k + 1) = i + 1 + k by omega]
        exact this
    · rintro ⟨rfl, hall⟩
      refine ⟨i + 1, ?_, ?_⟩
      · simp only [List.flatMap_cons, List.flatMap_nil, List.append_nil]
        exact (ha i (i + 1)).mpr ⟨rfl, by simpa using hall 0 (by omega)⟩
      · refine (ih (i + 1) _).mpr ⟨by omega, ?_⟩
        intro k hk
        have := hall (k + 1) (by omega)
        rw [show i + 1 + k = i + (k + 1) by omega]
        exact this

/-- The class `[0-9]`. -/
theorem classTest_digits (x : Nat) :
    classTest false [.range 48 57] x = true ↔ 48 ≤ x ∧ x ≤ 57 := by
  simp [classTest, ClassItem.test]

/-- The pattern `^[0-9]{5}$` matches exactly the five-digit values. -/
theorem containsMatch_zip (v : JSString) :
    ContainsMatch v
        (.cat .bol (.cat (.rep (.cls false [.range 48 57]) 5 (some 5) true) (.cat .eol .empty))) ↔
      v.length = 5 ∧ ∀ c ∈ v, 48 ≤ c ∧ c ≤ 57 := by
  have hunit := mem_iter_unit v (.cls false [.range 48 57]) (classTest false [.range 48 57])
    (mem_ends_cls v false [.range 48 57])
  unfold ContainsMatch MatchesAt
  constructor
  · rintro ⟨i, j, _, _, h⟩
    simp only [ends, List.mem_flatMap, Nat.sub_self, more, List.mem_singleton] at h
    rcases h with ⟨i0, hi0, k, ⟨k1, hk1, hkk⟩, e, he, hj⟩
    split at hi0
    · simp only [List.mem_singleton] at hi0
      subst hi0
      subst hkk
      rename_i hzero
      subst hzero
      rcases (hunit 5 0 k).mp hk1 with ⟨hk5, hall⟩
      split at he
      · rename_i hlen
        refine ⟨by omega, ?_⟩
        intro c hc
        rcases List.mem_iff_get?.mp hc with ⟨n, hn⟩
        have hnlt := (List.get?_eq_some.mp hn).1
        rcases hall n (by omega) with ⟨x, hx, htx⟩
        simp only [Nat.zero_add] at hx
        rw [hn] at hx
        cases hx
        exact (classTest_digits c).mp htx
      · simp at he
    · simp at hi0
  · rintro ⟨hlen, hall⟩
    refine ⟨0, 5, by omega, by omega, ?_⟩
    simp only [ends, List.mem_flatMap, Nat.sub_self, more, List.mem_singleton]
    refine ⟨0, by simp, 5, ⟨5, ?_, rfl⟩, 5, by simp [hlen], rfl⟩
    refine (hunit 5 0 5).mpr ⟨by omega, ?_⟩
    intro k hk
    have hklt : k < v.length := by omega
    refine ⟨v.get ⟨k, hklt⟩, ?_, ?_⟩
    · simp [List.get?_eq_get hklt]
    · exact (classTest_digits _).mpr (hall _ (List.get_mem v k hklt))

/-- Claim C8: For the pattern `^[0-9]{5}$`, a key the resolver maps to a string and
every string value: the validator returns no error exactly when the value
consists of five code units, each an ASCII digit; every other value yields the
resolved message. -/
theorem five_digit_pattern (res : I18n) (el : Element) (v msg : JSString)
    (hp : (el.attr "data-regex").1 = some (js "^[0-9]{5}$"))
    (hk : res (el.attr "data-regex-text").1 = .ok msg)
    (hv : el.val.1 = some v) :
    ((validate res el).1 = .ok none ↔ v.length = 5 ∧ ∀ c ∈ v, 48 ≤ c ∧ c ≤ 57) ∧
      (¬ (v.length = 5 ∧ ∀ c ∈ v, 48 ≤ c ∧ c ≤ 57) →
        (validate res el).1 = .ok (some msg)) := by
  have hc : RegExp.new (el.attr "data-regex").1 =
      .ok (.cat .bol (.cat (.rep (.cls false [.range 48 57]) 5 (some 5) true)
        (.cat .eol .empty))) := by
    rw [hp]; decide
  have h := validate_by_match res el _ v msg hc hk hv
  rw [containsMatch_zip] at h
  refine ⟨⟨?_, h.1⟩, h.2⟩
  intro hok
  by_contra hn
  rw [h.2 hn] at hok
  cases hok

/-- Claim C8 at `94105`, with a trailing newline, with a leading blank, with a letter. -/
theorem five_digit_pattern_witness :
    (validate demoI18n (field "^[0-9]{5}$" "zip.invalid" (some "94105"))).1 = .ok none ∧
      (validate demoI18n (field "^[0-9]{5}$" "zip.invalid" (some "94105\n"))).1 =
        .ok (some (js "Enter a five-digit code")) ∧
      (validate demoI18n (field "^[0-9]{5}$" "zip.invalid" (some " 94105"))).1 =
        .ok (some (js "Enter a five-digit code")) ∧
      (validate demoI18n (field "^[0-9]{5}$" "zip.invalid" (some "9410a"))).1 =
        .ok (some (js "Enter a five-digit code")) :=
  ⟨(five_digit_pattern demoI18n (field "^[0-9]{5}$" "zip.invalid" (some "94105"))
      (js "94105") (js "Enter a five-digit code") (by decide) (by decide) (by decide)).1.mpr
      (by decide),
   (five_digit_pattern demoI18n (field "^[0-9]{5}$" "zip.invalid" (some "94105\n"))
      (js "94105\n") (js "Enter a five-digit code") (by decide) (by decide) (by decide)).2
      (by decide),
   (five_digit_pattern demoI18n (field "^[0-9]{5}$" "zip.invalid" (some " 94105"))
      (js " 94105") (js "Enter a five-digit code") (by decide) (by decide) (by decide)).2
      (by decide),
   (five_digit_pattern demoI18n (field "^[0-9]{5}$" "zip.invalid" (some "9410a"))
      (js "9410a") (js "Enter a five-digit code") (by decide) (by decide) (by decide)).2
      (by decide)⟩

/-- Outside the syntax characters a code unit is a literal atom. -/
theorem lexNormal_literal (c : Nat) (h : isSyntaxChar c = false) :
    lexNormal c = .ok (.normal, [.atom (.char c)]) := by
  simp only [isSyntaxChar, Bool.or_eq_false_iff, beq_eq_false_iff_ne, ne_eq] at h
  simp [lexNormal, h]

/-- A text without syntax characters scans to its literal atoms. -/
theorem lexFrom_literal (p : JSString) (h : ∀ c ∈ p, isSyntaxChar c = false) :
    lexFrom .normal p = .ok (p.map (fun c => Token.atom (.char c))) := by
  induction p with
  | nil => rfl
  | cons c cs ih =>
    have hc := lexNormal_literal c (h c (List.mem_cons_self c cs))
    have hcs := ih (fun x hx => h x (List.mem_cons_of_mem c hx))
    simp [lexFrom, lexStep, hc, hcs]

/-- Literal atoms are appended to the current alternative. -/
theorem psteps_literal (p : JSString) :
    ∀ (cur : List Node) (last : Last), ∃ last1,
      psteps ⟨[], ⟨[], cur⟩, last⟩ (p.map (fun c => Token.atom (.char c))) =
        .ok ⟨[], ⟨[], (p.map Node.char).reverse ++ cur⟩, last1⟩ := by
  induction p with
  | nil => intro cur last; exact ⟨last, rfl⟩
  | cons c cs ih =>
    intro cur last
    rcases ih (.char c :: cur) .atom with ⟨l, hl⟩
    refine ⟨l, ?_⟩
    simp only [List.map_cons, psteps, pstep, hl, List.reverse_cons, List.append_assoc,
      List.singleton_append]

/-- A pattern without syntax characters compiles to its code units in sequence. -/
theorem compile_literal (p : JSString) (h : ∀ c ∈ p, isSyntaxChar c = false) :
    compile p = .ok (mkCat (p.map Node.char)) := by
  rcases psteps_literal p [] .nothing with ⟨l, hl⟩
  simp [compile, lexFrom_literal p h, parse, hl, Frame.close, mkAlt]

/-- A nonempty text starts at index `i` when its head is there and its tail follows. -/
theorem cons_prefix_drop (v p : JSString) (c i : Nat) :
    (c :: p) <+: v.drop i ↔ v.get? i = some c ∧ p <+: v.drop (i + 1) := by
  by_cases hi : i < v.length
  · rw [List.drop_eq_getElem_cons hi, List.cons_prefix_cons, List.get?_eq_getElem?,
      List.getElem?_eq_getElem hi]
    simp [eq_comm]
  · have h1 : v.drop i = [] := List.drop_of_length_le (by omega)
    have h2 : v.get? i = none := List.get?_eq_none.mpr (by omega)
    rw [h1, h2]
    simp

/-- A sequence of literal code units matches exactly its own text. -/
theorem mem_ends_literal (v : JSString) (p : JSString) :
    ∀ (i j : Nat), j ∈ ends v (mkCat (p.map Node.char)) i ↔
      j = i + p.length ∧ p <+: v.drop i := by
  induction p with
  | nil => intro i j; simp [mkCat, ends]
  | cons c cs ih =>
    intro i j
    simp only [List.map_cons, mkCat, ends, List.mem_flatMap, List.length_cons]
    rw [cons_prefix_drop]
    constructor
    · rintro ⟨k, hk, hj⟩
      have hk' := (mem_ends_char v c i k).mp hk
      rcases hk' with ⟨rfl, hget⟩
      rcases (ih (i + 1) j).mp hj with ⟨rfl, hpre⟩
      exact ⟨by omega, hget, hpre⟩
    · rintro ⟨rfl, hget, hpre⟩
      refine ⟨i + 1, (mem_ends_char v c i (i + 1)).mpr ⟨rfl, hget⟩, ?_⟩
      exact (ih (i + 1) _).mpr ⟨by omega, hpre⟩

/-- A literal sequence matches somewhere exactly when it is an infix. -/
theorem containsMatch_literal (v p : JSString) :
    ContainsMatch v (mkCat (p.map Node.char)) ↔ p <:+: v := by
  unfold ContainsMatch MatchesAt
  constructor
  · rintro ⟨i, j, _, _, h⟩
    rcases (mem_ends_literal v p i j).mp h with ⟨_, hpre⟩
    exact List.infix_iff_prefix_suffix.mpr ⟨v.drop i, hpre, List.drop_suffix i v⟩
  · intro h
    rcases List.infix_iff_prefix_suffix.mp h with ⟨t, hpt, htv⟩
    have ht : t = v.drop (v.length - t.length) := List.suffix_iff_eq_drop.mp htv
    have hlen1 : t.length ≤ v.length := htv.length_le
    have hlen2 : p.length ≤ t.length := hpt.length_le
    refine ⟨v.length - t.length, v.length - t.length + p.length, by omega, by omega, ?_⟩
    refine (mem_ends_literal v p _ _).mpr ⟨rfl, ?_⟩
    rw [← ht]
    exact hpt

/-- Claim C7: Matching is unanchored, case-sensitive and on the verbatim value: for a
pattern made only of literal code units (no syntax character), a key the resolver
maps to a string and every string value, the validator returns no error exactly
when the pattern occurs in the value as a contiguous run of equal code units, and
returns the message otherwise. -/
theorem literal_pattern_is_substring_test (res : I18n) (el : Element) (p v msg : JSString)
    (hlit : ∀ c ∈ p, isSyntaxChar c = false)
    (hp : (el.attr "data-regex").1 = some p)
    (hk : res (el.attr "data-regex-text").1 = .ok msg)
    (hv : el.val.1 = some v) :
    ((validate res el).1 = .ok none ↔ p <:+: v) ∧
      (¬ p <:+: v → (validate res el).1 = .ok (some msg)) := by
  have hc : RegExp.new (el.attr "data-regex").1 = .ok (mkCat (p.map Node.char)) := by
    rw [hp]
    exact compile_literal p hlit
  have h := validate_by_match res el _ v msg hc hk hv
  rw [containsMatch_literal] at h
  refine ⟨⟨?_, h.1⟩, h.2⟩
  intro hok
  by_contra hn
  rw [h.2 hn] at hok
  cases hok

/-- Claim C7: `Zip` is found in `my Zip code`, not in `my zip code`; `a b` is not found in
`a  b`. -/
theorem literal_pattern_is_substring_test_witness :
    (validate demoI18n (field "Zip" "zip.invalid" (some "my Zip code"))).1 = .ok none ∧
      (validate demoI18n (field "Zip" "zip.invalid" (some "my zip code"))).1 =
        .ok (some (js "Enter a five-digit code")) ∧
      (validate demoI18n (field "a b" "zip.invalid" (some "a  b"))).1 =
        .ok (some (js "Enter a five-digit code")) :=
  ⟨(literal_pattern_is_substring_test demoI18n (field "Zip" "zip.invalid" (some "my Zip code"))
      (js "Zip") (js "my Zip code") (js "Enter a five-digit code")
      (by decide) (by decide) (by decide) (by decide)).1.mpr (by decide),
   (literal_pattern_is_substring_test demoI18n (field "Zip" "zip.invalid" (some "my zip code"))
      (js "Zip") (js "my zip code") (js "Enter a five-digit code")
      (by decide) (by decide) (by decide) (by decide)).2 (by decide),
   (literal_pattern_is_substring_test demoI18n (field "a b" "zip.invalid" (some "a  b"))
      (js "a b") (js "a  b") (js "Enter a five-digit code")
      (by decide) (by decide) (by decide) (by decide)).2 (by decide)⟩

/-- Steps with the same end indices have the same end indices when repeated. -/
theorem mem_iter_congr (f g : Nat → List Nat) (hfg : ∀ x y, y ∈ f x ↔ y ∈ g x) (j : Nat) :
    ∀ (n : Nat) (xs ys : List Nat), (∀ x, x ∈ xs ↔ x ∈ ys) →
      (j ∈ iter f n xs ↔ j ∈ iter g n ys) := by
  intro n
  induction n with
  | zero => intro xs ys h; exact h j
  | succ n ih =>
    intro xs ys h
    simp only [iter]
    apply ih
    intro x
    simp only [List.mem_flatMap]
    constructor
    · rintro ⟨a, ha, hx⟩
      exact ⟨a, (h a).mp ha, (hfg a x).mp hx⟩
    · rintro ⟨a, ha, hx⟩
      exact ⟨a, (h a).mpr ha, (hfg a x).mpr hx⟩

/-- The order of trial does not change which end indices further iterations reach. -/
theorem mem_moreBy (greedy : Bool) (f g : Nat → List Nat)
    (hfg : ∀ x y, y ∈ f x ↔ y ∈ g x) :
    ∀ (n i j : Nat), j ∈ moreBy greedy f n i ↔ j ∈ more g n i := by
  intro n
  induction n with
  | zero => intro i j; simp [moreBy, more]
  | succ n ih =>
    intro i j
    have hdeep : j ∈ ((f i).filter (fun k => decide (i < k))).flatMap (moreBy greedy f n) ↔
        j ∈ ((g i).filter (fun k => decide (i < k))).flatMap (more g n) := by
      simp only [List.mem_flatMap, List.mem_filter, decide_eq_true_eq]
      constructor
      · rintro ⟨k, ⟨hk, hlt⟩, hj⟩
        exact ⟨k, ⟨(hfg i k).mp hk, hlt⟩, (ih k j).mp hj⟩
      · rintro ⟨k, ⟨hk, hlt⟩, hj⟩
        exact ⟨k, ⟨(hfg i k).mpr hk, hlt⟩, (ih k j).mpr hj⟩
    cases greedy with
    | false =>
      simp only [moreBy, more, Bool.false_eq_true, if_false, List.mem_cons]
      rw [hdeep]
    | true =>
      simp only [moreBy, more, if_true, List.mem_append, List.mem_singleton, List.mem_cons]
      rw [hdeep]
      simp only [List.not_mem_nil, or_false]
      exact Or.comm

/-- The matcher in trial order reaches exactly the end indices of `ends`. -/
theorem mem_endsInOrder (inp : JSString) (r : Node) :
    ∀ (i j : Nat), j ∈ endsInOrder inp r i ↔ j ∈ ends inp r i := by
  induction r with
  | empty => intro i j; simp [endsInOrder]
  | char c => intro i j; simp [endsInOrder]
  | any => intro i j; simp [endsInOrder]
  | cls neg items => intro i j; simp [endsInOrder]
  | bol => intro i j; simp [endsInOrder]
  | eol => intro i j; simp [endsInOrder]
  | wordB p => intro i j; simp [endsInOrder]
  | cat a b iha ihb =>
    intro i j
    simp only [endsInOrder, ends, List.mem_flatMap]
    constructor
    · rintro ⟨k, hk, hj⟩
      exact ⟨k, (iha i k).mp hk, (ihb k j).mp hj⟩
    · rintro ⟨k, hk, hj⟩
      exact ⟨k, (iha i k).mpr hk, (ihb k j).mpr hj⟩
  | alt a b iha ihb =>
    intro i j
    simp only [endsInOrder, ends, List.mem_append, iha i j, ihb i j]
  | rep a n m g iha =>
    intro i j
    have hiter : ∀ k, k ∈ iter (endsInOrder inp a) n [i] ↔ k ∈ iter (ends inp a) n [i] :=
      fun k => mem_iter_congr _ _ iha k n [i] [i] (fun _ => Iff.rfl)
    cases m with
    | none =>
      simp only [endsInOrder, ends, List.mem_flatMap]
      constructor
      · rintro ⟨k, hk, hj⟩
        exact ⟨k, (hiter k).mp hk, (mem_moreBy g _ _ iha _ k j).mp hj⟩
      · rintro ⟨k, hk, hj⟩
        exact ⟨k, (hiter k).mpr hk, (mem_moreBy g _ _ iha _ k j).mpr hj⟩
    | some m =>
      simp only [endsInOrder, ends, List.mem_flatMap]
      constructor
      · rintro ⟨k, hk, hj⟩
        exact ⟨k, (hiter k).mp hk, (mem_moreBy g _ _ iha _ k j).mp hj⟩
      · rintro ⟨k, hk, hj⟩
        exact ⟨k, (hiter k).mpr hk, (mem_moreBy g _ _ iha _ k j).mpr hj⟩

/-- Lists with the same members are empty together. -/
theorem isEmpty_congr (xs ys : List Nat) (h : ∀ j, j ∈ xs ↔ j ∈ ys) :
    xs.isEmpty = ys.isEmpty := by
  cases xs with
  | nil =>
    cases ys with
    | nil => rfl
    | cons y ys => exact absurd ((h y).mpr (List.mem_cons_self y ys)) (List.not_mem_nil y)
  | cons x xs =>
    cases ys with
    | nil => exact absurd ((h x).mp (List.mem_cons_self x xs)) (List.not_mem_nil x)
    | cons y ys => rfl

/-- On an object without the global and sticky flags exec searches from index 0
whatever `lastIndex` holds, finds a match exactly when `exec` does, and leaves the
object as it was. -/
theorem builtinExec_plain (r : RegExpObj) (s : JSString)
    (hg : r.global = false) (hs : r.sticky = false) :
    (builtinExec r s).2 = r ∧ (builtinExec r s).1.isSome = (exec r.node s).isSome := by
  have hpred : (fun i => !(endsInOrder s r.node i).isEmpty) =
      (fun i => !(ends s r.node i).isEmpty) := by
    funext i
    rw [isEmpty_congr _ _ (mem_endsInOrder s r.node i)]
  unfold builtinExec exec
  simp only [hg, hs, Bool.or_self, Bool.false_eq_true, if_false, List.drop_zero, hpred]
  cases List.find? (fun i => !(ends s r.node i).isEmpty) (List.range (s.length + 1)) with
  | none => exact ⟨rfl, rfl⟩
  | some i => exact ⟨rfl, rfl⟩

/-- The method behind `match` on an object without flags. -/
theorem symbolMatch_plain (r : RegExpObj) (s : JSString)
    (hg : r.global = false) (hs : r.sticky = false) :
    (symbolMatch r s).2 = r ∧ (symbolMatch r s).1.isSome = (exec r.node s).isSome := by
  unfold symbolMatch
  simp only [hg, Bool.false_eq_true, if_false]
  exact builtinExec_plain r s hg hs

/-- An invocation in a host state: its outcome is the outcome of `validate` on the
element, the element is left as it was, and the store is the old store with, when
the pattern compiles, the new object appended. -/
theorem validateIn_spec (res : I18n) (w : World) :
    (validateIn res w).1 = (validate res w.element).1 ∧
      (validateIn res w).2.element = w.element ∧
      (validateIn res w).2.store =
        (match RegExp.new (w.element.attr "data-regex").1 with
         | .error _ => w.store
         | .ok node => w.store ++ [⟨node, false, false, 0⟩]) := by
  rw [validate_fst]
  unfold validateIn World.attr World.newRegExp World.val World.strMatch
  simp only [Element.attr, Element.val]
  cases hc : RegExp.new (w.element.attrs.lookup "data-regex") with
  | error e => exact ⟨rfl, rfl, rfl⟩
  | ok node =>
    simp only
    cases hk : res (w.element.attrs.lookup "data-regex-text") with
    | error e => exact ⟨rfl, rfl, rfl⟩
    | ok msg =>
      simp only
      cases hv : w.element.value with
      | none => exact ⟨rfl, rfl, rfl⟩
      | some v =>
        have hget : (w.store ++ [(⟨node, false, false, 0⟩ : RegExpObj)]).get? w.store.length =
            some ⟨node, false, false, 0⟩ := by
          simp
        have hplain := symbolMatch_plain ⟨node, false, false, 0⟩ v rfl rfl
        simp only [hget, hplain.1]
        have hset : (w.store ++ [(⟨node, false, false, 0⟩ : RegExpObj)]).set w.store.length
            ⟨node, false, false, 0⟩ = w.store ++ [⟨node, false, false, 0⟩] := by
          simp
        rw [hset, hplain.2]
        cases (exec node v).isSome with
        | false => exact ⟨rfl, rfl, rfl⟩
        | true => exact ⟨rfl, rfl, rfl⟩

/-- The store semantics is not idle: the same sticky object gives two different
results when exec runs on it twice. -/
theorem sticky_exec_depends_on_lastIndex :
    (builtinExec ⟨.cat (.rep (.cls false [.range 65 90]) 1 none true) .empty, false, true, 2⟩
        (js "heLLo")).1 = some (2, 4) ∧
      (builtinExec
        (builtinExec ⟨.cat (.rep (.cls false [.range 65 90]) 1 none true) .empty, false, true, 2⟩
          (js "heLLo")).2 (js "heLLo")).1 = none := by
  decide

/-- Claim C5: Idempotence.  The outcome of an invocation is determined by the
element state and the resolver alone: two host states with the same element give
the same outcome whatever regular-expression objects their stores hold.  An
invocation leaves the element unchanged, so invoking the validator again in the
state the first invocation left (whose store has grown by the object the first
invocation compiled) yields the same success, the same message or the same
failure. -/
theorem validate_idempotent (res : I18n) (w : World) :
    (validateIn res (validateIn res w).2).1 = (validateIn res w).1 ∧
      (validateIn res (validateIn res w).2).2.element = w.element ∧
      (∀ w2 : World, w2.element = w.element → (validateIn res w2).1 = (validateIn res w).1) := by
  have h1 := validateIn_spec res w
  have h2 := validateIn_spec res (validateIn res w).2
  refine ⟨?_, ?_, ?_⟩
  · rw [h2.1, h1.2.1, h1.1]
  · rw [h2.2.1, h1.2.1]
  · intro w2 hw
    rw [(validateIn_spec res w2).1, hw, h1.1]

/-- Claim C5 at `[A-Z]+` and `heLLo`: the first invocation leaves its object in the
store and the second gives the same outcome; a store holding a leftover sticky,
global object for the same pattern gives that outcome too. -/
theorem validate_idempotent_witness :
    (validateIn demoI18n ⟨field "[A-Z]+" "zip.invalid" (some "heLLo"), []⟩).2.store =
        [⟨.cat (.rep (.cls false [.range 65 90]) 1 none true) .empty, false, false, 0⟩] ∧
      (validateIn demoI18n
        (validateIn demoI18n ⟨field "[A-Z]+" "zip.invalid" (some "heLLo"), []⟩).2).1 =
        (validateIn demoI18n ⟨field "[A-Z]+" "zip.invalid" (some "heLLo"), []⟩).1 ∧
      (validateIn demoI18n ⟨field "[A-Z]+" "zip.invalid" (some "heLLo"), staleStore⟩).1 =
        (validateIn demoI18n ⟨field "[A-Z]+" "zip.invalid" (some "heLLo"), []⟩).1 :=
  ⟨by decide,
   (validate_idempotent demoI18n
      (World.mk (field "[A-Z]+" "zip.invalid" (some "heLLo")) [])).1,
   (validate_idempotent demoI18n
      (World.mk (field "[A-Z]+" "zip.invalid" (some "heLLo")) [])).2.2
      (World.mk (field "[A-Z]+" "zip.invalid" (some "heLLo")) staleStore) rfl⟩

end RegexValidator
